import Mathlib

/-!
Shallow embedding of `hmc/samplers.py` (Hamiltonian Monte Carlo sampler
classes) and verification of a collection of claims about it.

Modelling conventions:

* `ChainState` embeds the Python chain-state object: position, momentum and
  integration direction.  Position/momentum vectors are an abstract additive
  commutative group `V` (the code uses numpy arrays; none of the claims
  depend on the concrete vector representation).
* Floating-point scalars are modelled as rationals `ℚ`.  The real
  exponential `np.exp` is modelled by an abstract function `expQ : ℚ → ℚ`
  carried in the system record: no claim depends on the values of `exp`.
* `LogRepFloat` (log-domain non-negative scalar from `hmc/utils.py`, not
  part of the sources) is modelled from the spec by the non-negative value
  it represents: a rational, with ordinary addition and division
  ("represents a non-negative real number ...; supports addition and
  division", spec §3); weight of a state of energy `h` is `expQ (-h)`.
* The integrator (`hmc/integrators.py`, not part of the sources) is
  modelled from the spec as a step function `ChainState V → Option (ChainState V)`:
  `none` models a step raising an `IntegratorError` (a `RuntimeError`),
  `some s'` a successful step returning a fresh state object ("must not
  mutate its input in a way visible to other live references", spec §6).
* The pseudo-random source is modelled as the deterministic sequence of
  uniform draws `rng : ℕ → ℚ` consumed in program order together with a
  cursor `k : ℕ` ("drawn from in a fixed, deterministic sequence order",
  spec §5).
* Python mutation of the arguments `sum_mom`, `sum_weight`, `stats` is
  modelled by in/out value passing: each function receives the current
  values and returns the updated ones.
-/

namespace HMC

/-- The chain state object: position `pos`, momentum `mom`, integration
direction `dir` (`±1`).  Mirrors the fields used by `hmc/samplers.py`. -/
structure ChainState (V : Type) where
  pos : V
  mom : V
  dir : ℤ
  deriving DecidableEq, Repr

/-- The external collaborators of the samplers, bundled: the Hamiltonian
system contract (`h`, `dh_dmom` with an inner product `dot`) and the
abstract exponential used both for Metropolis acceptance probabilities and
for the value semantics of log-domain weights. -/
structure HSystem (V : Type) where
  h : ChainState V → ℚ
  dhDmom : ChainState V → V
  dot : V → V → ℚ
  expQ : ℚ → ℚ

/-- The trajectory loop of `BaseMetropolisHMC._sample_dynamics_transition`:
`for s in range(n_step): state_p = self.integrator.step(state_p)`.
`.ok s'` is the state at the end of the trajectory; `.error k` models the
loop raising a `RuntimeError` during iteration `k` (0-based), i.e. after
`k` completed steps — in the Python handler the loop variable `s` then
holds `k`. -/
def runSteps {V : Type} (step : ChainState V → Option (ChainState V)) :
    ChainState V → ℕ → Except ℕ (ChainState V)
  | s, 0 => .ok s
  | s, n + 1 =>
    match step s with
    | none => .error 0
    | some s' =>
      match runSteps step s' n with
      | .ok r => .ok r
      | .error k => .error (k + 1)

/-- The per-transition statistics dict returned by
`BaseMetropolisHMC._sample_dynamics_transition`. -/
structure MetTransStats where
  hamiltonian : ℚ
  acceptProb : ℚ
  nStep : ℕ
  deriving DecidableEq, Repr

/-- Embeds `BaseMetropolisHMC._sample_dynamics_transition(state, n_step)` with the
uniform acceptance draw `u` made explicit.  Python aliasing is modelled
exactly: when `n_step = 0` the loop body never runs, so `state_p` *is*
`state` and the flip `state_p.dir *= -1` is visible through the name
`state` as well (hence `stateAfterFlip`). -/
def sampleDynamicsTransition {V : Type} (sys : HSystem V)
    (step : ChainState V → Option (ChainState V)) (u : ℚ)
    (state : ChainState V) (nStep : ℕ) : ChainState V × MetTransStats :=
  let hInit := sys.h state
  match runSteps step state nStep with
  | .error k => (state, ⟨hInit, 0, k⟩)
  | .ok endSt =>
    let state_p : ChainState V := { endSt with dir := -endSt.dir }
    -- after `state_p.dir *= -1`, the name `state` denotes `state_p`
    -- when the two alias (zero loop iterations), else the original state
    let stateAfterFlip := if nStep = 0 then state_p else state
    let hFinal := sys.h state_p
    let acceptProb := min 1 (sys.expQ (hInit - hFinal))
    let stateSel := if u < acceptProb then state_p else stateAfterFlip
    let result : ChainState V := { stateSel with dir := -stateSel.dir }
    (result, ⟨sys.h result, acceptProb, nStep⟩)

/-- Embeds `StaticMetropolisHMC.sample_dynamics_transition`: runs the shared
Metropolis transition with the configured fixed step count. -/
def staticSampleDynamicsTransition {V : Type} (sys : HSystem V)
    (step : ChainState V → Option (ChainState V)) (u : ℚ)
    (state : ChainState V) (nStepCfg : ℕ) : ChainState V × MetTransStats :=
  sampleDynamicsTransition sys step u state nStepCfg

/-- Embeds `RandomMetropolisHMC.__init__`: `assert n_step_lower > 0 and
n_step_lower < n_step_upper`; a failing assert aborts construction
(modelled by `none`), otherwise the range is stored. -/
def randomMetropolisInit (nStepLower nStepUpper : ℤ) : Option (ℤ × ℤ) :=
  if 0 < nStepLower ∧ nStepLower < nStepUpper then
    some (nStepLower, nStepUpper)
  else
    none

/-- Result of the Python dynamically-typed
`BaseCorrelatedMomentumHMC.sample_momentum_transition`: the method is
supposed to return a chain state, but can return any Python value — in
particular a bare momentum vector. -/
inductive MomRefreshResult (V : Type) where
  | state : ChainState V → MomRefreshResult V
  | mom : V → MomRefreshResult V
  deriving DecidableEq, Repr

/-- Embeds `BaseCorrelatedMomentumHMC.sample_momentum_transition` exactly as the
source reads: the first statement is
`return self.system.sample_momentum(state, self.rng)`, which returns the
freshly sampled momentum vector itself (not the state), so everything
after it — the documented Crank–Nicolson partial refresh on
`mom_resample_coeff` — is unreachable dead code. -/
def correlatedSampleMomentumTransition {V : Type}
    (sampleMomentum : ChainState V → V) (momResampleCoeff : ℚ)
    (state : ChainState V) : MomRefreshResult V :=
  MomRefreshResult.mom (sampleMomentum state)

/-- Configuration and collaborators of `DynamicMultinomialHMC`. -/
structure DynamicMultinomialHMC (V : Type) where
  sys : HSystem V
  step : ChainState V → Option (ChainState V)
  maxTreeDepth : ℕ
  maxDeltaH : ℚ

/-- Embeds `DynamicMultinomialHMC.termination_criterion(state_1, state_2, sum_mom)`. -/
def terminationCriterion {V : Type} (sys : HSystem V)
    (state1 state2 : ChainState V) (sumMom : V) : Bool :=
  decide (sys.dot (sys.dhDmom state1) sumMom < 0) ||
    decide (sys.dot (sys.dhDmom state2) sumMom < 0)

/-- The mutable statistics accumulator dict threaded through `build_tree`
(`n_step`, `divergent`, `sum_acc_prob`). -/
structure TreeStats where
  nStep : ℕ
  divergent : Bool
  sumAccProb : ℚ
  deriving DecidableEq, Repr

/-- The outcome of a `build_tree` call: the returned 4-tuple
`(terminate, state_first, state_last, state_p)` (states are `none` when the
Python code returns `None`), plus the out-values of the mutated arguments
`sum_mom`, `sum_weight`, `stats` and the advanced rng cursor `k`. -/
structure BuildResult (V : Type) where
  terminate : Bool
  stateFirst : Option (ChainState V)
  stateLast : Option (ChainState V)
  stateProp : Option (ChainState V)
  sumMom : V
  sumWeight : ℚ
  stats : TreeStats
  k : ℕ

/-- Embeds `DynamicMultinomialHMC.build_tree(depth, state, sum_mom, sum_weight,
stats, h_init)`.  The recursive case passes fresh zero accumulators
(`sum_mom_i`, `sum_weight_i`, ...) to the two sub-builds, exactly as the
source does, and consumes one uniform draw (at cursor position `ro.k`) for
the proposal selection between the two sub-proposals.  The two `match`
fall-through branches are unreachable (a non-terminated build always
returns concrete states, `buildTree_not_terminate_isSome` below); Python
would raise an uncaught `AttributeError` there. -/
def buildTree {V : Type} [AddCommMonoid V] (M : DynamicMultinomialHMC V)
    (rng : ℕ → ℚ) :
    ℕ → ChainState V → V → ℚ → TreeStats → ℚ → ℕ → BuildResult V
  | 0, state, sumMom, sumWeight, stats, hInit, k =>
    match M.step state with
    | none =>
      -- `except RuntimeError`: `state = None; terminate = True`
      ⟨true, none, none, none, sumMom, sumWeight, stats, k⟩
    | some st =>
      let hamiltonian := M.sys.h st
      let sumMom' := sumMom + st.mom
      let sumWeight' := sumWeight + M.sys.expQ (-hamiltonian)
      let stats' : TreeStats :=
        { stats with
          sumAccProb := stats.sumAccProb + min 1 (M.sys.expQ (hInit - hamiltonian))
          nStep := stats.nStep + 1 }
      let terminate := decide (hamiltonian - hInit > M.maxDeltaH)
      let stats'' := if terminate then { stats' with divergent := true } else stats'
      ⟨terminate, some st, some st, some st, sumMom', sumWeight', stats'', k⟩
  | depth + 1, state, sumMom, sumWeight, stats, hInit, k =>
    -- build inner subsubtree
    let ri := buildTree M rng depth state 0 0 stats hInit k
    if ri.terminate then
      ⟨true, none, none, none, sumMom, sumWeight, ri.stats, ri.k⟩
    else
      match ri.stateFirst, ri.stateLast, ri.stateProp with
      | some stI, some stNew, some stPI =>
        -- build outer subsubtree from the inner build's resulting edge
        let ro := buildTree M rng depth stNew 0 0 ri.stats hInit ri.k
        if ro.terminate then
          ⟨true, none, none, none, sumMom, sumWeight, ro.stats, ro.k⟩
        else
          match ro.stateLast, ro.stateProp with
          | some stO, some stPO =>
            let sumWeightS := ri.sumWeight + ro.sumWeight
            let acceptOProb := ro.sumWeight / sumWeightS
            let stP := if rng ro.k < acceptOProb then stPO else stPI
            let sumMomS := ri.sumMom + ro.sumMom
            let terminateS := terminationCriterion M.sys stI stO sumMomS
            ⟨terminateS, some stI, some stO, some stP, sumMom + sumMomS,
              sumWeight + sumWeightS, ro.stats, ro.k + 1⟩
          | _, _ => ⟨true, none, none, none, sumMom, sumWeight, ro.stats, ro.k⟩
      | _, _, _ => ⟨true, none, none, none, sumMom, sumWeight, ri.stats, ri.k⟩

/-- The outcome of the top-level doubling loop of
`DynamicMultinomialHMC.sample_dynamics_transition`: the candidate next
state, the statistics accumulator, the final value of the Python loop
variable `depth` (`none` when the loop body never ran, so that `depth` is
unbound) and the advanced rng cursor. -/
structure DynLoopResult (V : Type) where
  stateN : ChainState V
  stats : TreeStats
  lastDepth : Option ℕ
  k : ℕ

/-- The `for depth in range(self.max_tree_depth)` loop of
`DynamicMultinomialHMC.sample_dynamics_transition`, with `remaining` the
number of iterations left and `depth` the current loop value.  Each
iteration draws a direction (`2 * (uniform() < 0.5) - 1`), builds a
half-tree on the chosen edge, and either breaks (on subtree termination or
the no-U-turn test) or continues, progressively replacing the candidate
state with the subtree proposal when `uniform() < sum_weight_s /
sum_weight`.  The `match` fall-through is unreachable for the same reason
as in `buildTree`. -/
def dynLoop {V : Type} [AddCommMonoid V] (M : DynamicMultinomialHMC V)
    (rng : ℕ → ℚ) (hInit : ℚ) :
    ℕ → ℕ → ChainState V → ChainState V → ChainState V → V → ℚ → TreeStats →
      ℕ → DynLoopResult V
  | _, 0, stateN, _, _, _, _, stats, k => ⟨stateN, stats, none, k⟩
  | depth, remaining + 1, stateN, stateL, stateR, sumMom, sumWeight, stats, k =>
    let forward := rng k < (1 / 2 : ℚ)
    let r :=
      if forward then buildTree M rng depth stateR 0 0 stats hInit (k + 1)
      else buildTree M rng depth stateL 0 0 stats hInit (k + 1)
    if r.terminate then ⟨stateN, r.stats, some depth, r.k⟩
    else
      match r.stateLast, r.stateProp with
      | some stEdge, some stP =>
        let stateN' := if rng r.k < r.sumWeight / sumWeight then stP else stateN
        let sumWeight' := sumWeight + r.sumWeight
        let sumMom' := sumMom + r.sumMom
        let stateL' := if forward then stateL else stEdge
        let stateR' := if forward then stEdge else stateR
        if terminationCriterion M.sys stateL' stateR' sumMom' then
          ⟨stateN', r.stats, some depth, r.k + 1⟩
        else
          let res := dynLoop M rng hInit (depth + 1) remaining stateN' stateL'
            stateR' sumMom' sumWeight' r.stats (r.k + 1)
          match res.lastDepth with
          | none => { res with lastDepth := some depth }
          | some _ => res
      | _, _ => ⟨stateN, r.stats, some depth, r.k⟩

/-- The per-transition statistics dict returned by
`DynamicMultinomialHMC.sample_dynamics_transition`. -/
structure DynTransStats where
  hamiltonian : ℚ
  nStep : ℕ
  acceptProb : ℚ
  treeDepth : ℕ
  divergent : Bool
  deriving DecidableEq, Repr

/-- Embeds `DynamicMultinomialHMC.sample_dynamics_transition(state)`.  Returns
`none` when the method raises: with `max_tree_depth = 0` the doubling loop
body never executes and `stats['tree_depth'] = depth` reads the unbound
loop variable `depth` (an uncaught `NameError`). -/
def dynamicSampleDynamicsTransition {V : Type} [AddCommMonoid V]
    (M : DynamicMultinomialHMC V) (rng : ℕ → ℚ) (state : ChainState V) :
    Option (ChainState V × DynTransStats) :=
  let hInit := M.sys.h state
  let stats0 : TreeStats := ⟨0, false, 0⟩
  let res := dynLoop M rng hInit 0 M.maxTreeDepth state
    { state with dir := -1 } { state with dir := 1 } state.mom
    (M.sys.expQ (-hInit)) stats0 0
  match res.lastDepth with
  | none => none
  | some depth =>
    let acceptProb :=
      if res.stats.nStep > 0 then res.stats.sumAccProb / (res.stats.nStep : ℚ)
      else 0
    some (res.stateN,
      ⟨M.sys.h res.stateN, res.stats.nStep, acceptProb, depth,
        res.stats.divergent⟩)

/-- Allocation sizes of the arrays created by
`BaseMetropolisHMC.initialise_chain_stats(init_state, n_sample)`:
`np.empty(n_sample)` for `hamiltonian`, `np.empty(n_sample - 1)` for
`n_step` and `accept_prob`. -/
structure MetChainStatsAlloc where
  hamiltonian : ℕ
  nStep : ℕ
  acceptProb : ℕ
  deriving DecidableEq, Repr

/-- Array sizes allocated by `BaseMetropolisHMC.initialise_chain_stats`. -/
def metropolisInitialiseChainStats (nSample : ℕ) : MetChainStatsAlloc :=
  ⟨nSample, nSample - 1, nSample - 1⟩

/-- Allocation sizes of the arrays created by
`DynamicMultinomialHMC.initialise_chain_stats(init_state, n_sample)`. -/
structure DynChainStatsAlloc where
  hamiltonian : ℕ
  nStep : ℕ
  acceptProb : ℕ
  treeDepth : ℕ
  divergent : ℕ
  deriving DecidableEq, Repr

/-- Array sizes allocated by `DynamicMultinomialHMC.initialise_chain_stats`. -/
def dynamicInitialiseChainStats (nSample : ℕ) : DynChainStatsAlloc :=
  ⟨nSample, nSample - 1, nSample - 1, nSample - 1, nSample - 1⟩

/-- Indices of the `hamiltonian` statistics array written by the chain
driver: `initialise_chain_stats` writes index `0`
(`chain_stats['hamiltonian'][0] = ...`), then `sample_chain` iterates
`for s in range(n_sample - 1)` calling `update_chain_stats(s + 1, ...)`,
which writes `chain_stats['hamiltonian'][s]` at its argument `s + 1`. -/
def hamiltonianWriteIndices (nSample : ℕ) : List ℕ :=
  0 :: (List.range (nSample - 1)).map (fun s => s + 1)

/-- Indices of each per-transition statistics array (`n_step`,
`accept_prob`, and for the dynamic sampler `tree_depth`, `divergent`)
written by the chain driver: `update_chain_stats(s + 1, ...)` writes index
`(s + 1) - 1` for `s in range(n_sample - 1)`. -/
def perTransitionWriteIndices (nSample : ℕ) : List ℕ :=
  (List.range (nSample - 1)).map (fun s => (s + 1) - 1)

/-!  Concrete instances used to evaluate the embedding on explicit inputs:
a one-dimensional flat system (`h = 0`, zero gradient, `expQ = 1`), an
identity integrator and an always-failing integrator. -/

/-- A trivial concrete Hamiltonian system over `V = ℚ`. -/
def exSys : HSystem ℚ :=
  ⟨fun _ => 0, fun _ => 0, fun _ _ => 0, fun _ => 1⟩

/-- A concrete system whose energy jumps to `2000` after any step. -/
def exHighSys : HSystem ℚ :=
  ⟨fun _ => 2000, fun _ => 0, fun _ _ => 0, fun _ => 1⟩

/-- An integrator step that returns its input unchanged (never fails). -/
def exStep : ChainState ℚ → Option (ChainState ℚ) := fun s => some s

/-- An integrator step that always fails. -/
def exFailStep : ChainState ℚ → Option (ChainState ℚ) := fun _ => none

/-- A concrete chain state. -/
def exState : ChainState ℚ := ⟨0, 0, 1⟩

/-- A concrete dynamic sampler over the flat system, parametrised by
`max_tree_depth`; `max_delta_h = 1000`. -/
def exDyn (maxTreeDepth : ℕ) : DynamicMultinomialHMC ℚ :=
  ⟨exSys, exStep, maxTreeDepth, 1000⟩

/-- A concrete dynamic sampler every leaf of which is divergent
(`h_leaf - h_init = 2000 > max_delta_h = 1000` when `h_init = 0`). -/
def exDivDyn : DynamicMultinomialHMC ℚ :=
  ⟨exHighSys, exStep, 5, 1000⟩

/-- A concrete deterministic uniform-draw sequence. -/
def exRng : ℕ → ℚ := fun _ => 0

/-! ## Helper lemmas -/

/-- An integration failure during iteration `k` of the trajectory loop can
only happen for `k < n_step`. -/
lemma runSteps_error_lt {V : Type} (step : ChainState V → Option (ChainState V)) :
    ∀ (n k : ℕ) (s : ChainState V), runSteps step s n = .error k → k < n := by
  intro n
  induction n with
  | zero => intro k s h; simp [runSteps] at h
  | succ m ih =>
    intro k s h
    cases hstep : step s with
    | none => simp [runSteps, hstep] at h; omega
    | some s' =>
      cases hrec : runSteps step s' m with
      | ok r => simp [runSteps, hstep, hrec] at h
      | error k' =>
        simp [runSteps, hstep, hrec] at h
        have := ih k' s' hrec
        omega

/-- If every successful integrator step preserves the integration
direction, so does the whole trajectory loop. -/
lemma runSteps_ok_dir {V : Type} (step : ChainState V → Option (ChainState V))
    (hdir : ∀ s s', step s = some s' → s'.dir = s.dir) :
    ∀ (n : ℕ) (s endSt : ChainState V),
      runSteps step s n = .ok endSt → endSt.dir = s.dir := by
  intro n
  induction n with
  | zero => intro s endSt h; rw [runSteps] at h; cases h; rfl
  | succ m ih =>
    intro s endSt h
    cases hstep : step s with
    | none => simp [runSteps, hstep] at h
    | some s' =>
      cases hrec : runSteps step s' m with
      | ok r =>
        simp [runSteps, hstep, hrec] at h
        subst h
        exact (ih s' r hrec).trans (hdir s s' hstep)
      | error k' => simp [runSteps, hstep, hrec] at h

/-! ## Claim theorems -/

/-- C1: the momentum-refresh step of `BaseCorrelatedMomentumHMC` never
performs the documented update — for every resampling coefficient it
returns the freshly sampled momentum vector itself (the early `return`
on the first line), not the input state with its momentum updated; in
particular at the failing input `mom_resample_coeff = 0` the result is
not the unchanged state the claim requires. -/
theorem correlated_momentum_refresh_early_return :
    (∀ (coeff : ℚ) (state : ChainState ℚ) (sampleMom : ChainState ℚ → ℚ),
      correlatedSampleMomentumTransition sampleMom coeff state =
        MomRefreshResult.mom (sampleMom state)) ∧
    correlatedSampleMomentumTransition (fun _ => (7 : ℚ)) 0 exState ≠
      MomRefreshResult.state exState :=
  ⟨fun _ _ _ => rfl, by decide⟩

/-- C8: `RandomMetropolisHMC.__init__` rejects (assertion failure) every
step-count range with `lo ≥ hi` or `lo ≤ 0`, and succeeds for every range
with `0 < lo < hi`. -/
theorem random_metropolis_init_range_check (lo hi : ℤ) :
    ((hi ≤ lo ∨ lo ≤ 0) → randomMetropolisInit lo hi = none) ∧
    (0 < lo ∧ lo < hi → (randomMetropolisInit lo hi).isSome = true) := by
  constructor
  · intro h
    rw [randomMetropolisInit, if_neg]
    rintro ⟨h1, h2⟩
    rcases h with h | h <;> omega
  · intro h
    rw [randomMetropolisInit, if_pos h]
    rfl

/-- Witness for C8 at the spec's concrete inputs: the range `(5, 3)` is
rejected and the range `(1, 5)` is accepted. -/
theorem random_metropolis_init_range_check_witness :
    randomMetropolisInit 5 3 = none ∧
    (randomMetropolisInit 1 5).isSome = true :=
  ⟨(random_metropolis_init_range_check 5 3).1 (Or.inl (by norm_num)),
   (random_metropolis_init_range_check 1 5).2 (by norm_num)⟩

/-- C9: a static Metropolis transition with `n_step = 0` returns (without
raising — the embedding's total `.ok` path is taken) a state equal to the
input state: position and momentum unchanged and, because the zero-length
trajectory aliases `state_p` with `state`, the two direction negations
cancel regardless of the accept draw, leaving the direction at its
pre-transition value. -/
theorem static_metropolis_nstep_zero_noop {V : Type} (sys : HSystem V)
    (step : ChainState V → Option (ChainState V)) (u : ℚ)
    (state : ChainState V) :
    (staticSampleDynamicsTransition sys step u state 0).1.pos = state.pos ∧
    (staticSampleDynamicsTransition sys step u state 0).1.mom = state.mom ∧
    (staticSampleDynamicsTransition sys step u state 0).1.dir = state.dir := by
  cases state with
  | mk pos mom dir =>
    refine ⟨?_, ?_, ?_⟩ <;>
      simp [staticSampleDynamicsTransition, sampleDynamicsTransition, runSteps]

/-- C4: when the integrator fails during the trajectory loop after `k`
completed steps, the Metropolis transition returns the original state
object unmodified together with statistics reporting the initial
Hamiltonian, acceptance probability `0` and `n_step = k`; moreover
`k < n_step`. -/
theorem metropolis_integration_failure {V : Type} (sys : HSystem V)
    (step : ChainState V → Option (ChainState V)) (u : ℚ)
    (state : ChainState V) (nStep k : ℕ)
    (hfail : runSteps step state nStep = .error k) :
    sampleDynamicsTransition sys step u state nStep =
      (state, ⟨sys.h state, 0, k⟩) ∧ k < nStep := by
  refine ⟨?_, runSteps_error_lt step nStep k state hfail⟩
  simp [sampleDynamicsTransition, hfail]

/-- Witness for C4: an always-failing integrator fails on the first step
of a one-step trajectory, and the transition returns the unchanged state
with acceptance probability `0` and `n_step = 0`. -/
theorem metropolis_integration_failure_witness :
    sampleDynamicsTransition exSys exFailStep 0 exState 1 =
      (exState, ⟨exSys.h exState, 0, 0⟩) ∧ 0 < 1 :=
  metropolis_integration_failure exSys exFailStep 0 exState 1 0 rfl

/-- C3: for a Metropolis transition of `n_step ≥ 1` steps in which the
integrator does not fail (and, as the spec's integrator contract has it,
each successful step preserves the state's integration direction), an
accepted proposal leaves the returned state's direction equal to its
pre-transition value and a rejected proposal negates it.  The acceptance
condition `u < min(1, exp(H0 - H1))` is spelled out with `H1` the energy
of the direction-negated trajectory endpoint, exactly as in the source. -/
theorem metropolis_direction_bookkeeping {V : Type} (sys : HSystem V)
    (step : ChainState V → Option (ChainState V)) (u : ℚ)
    (state endSt : ChainState V) (nStep : ℕ)
    (hn : 1 ≤ nStep)
    (hok : runSteps step state nStep = .ok endSt)
    (hdir : ∀ s s', step s = some s' → s'.dir = s.dir) :
    (u < min 1 (sys.expQ (sys.h state - sys.h { endSt with dir := -endSt.dir })) →
      (sampleDynamicsTransition sys step u state nStep).1.dir = state.dir) ∧
    (min 1 (sys.expQ (sys.h state - sys.h { endSt with dir := -endSt.dir })) ≤ u →
      (sampleDynamicsTransition sys step u state nStep).1.dir = -state.dir) := by
  have hend : endSt.dir = state.dir := runSteps_ok_dir step hdir nStep state endSt hok
  have hne : ¬ nStep = 0 := by omega
  constructor
  · intro hacc
    have hacc' := lt_min_iff.mp hacc
    simp [sampleDynamicsTransition, hok, hne, hacc'.1, hacc'.2]
    exact hend
  · intro hrej
    have hnacc :
        ¬ (u < 1 ∧ u < sys.expQ (sys.h state - sys.h { endSt with dir := -endSt.dir })) := by
      rw [← lt_min_iff]
      exact not_lt.mpr hrej
    simp [sampleDynamicsTransition, hok, hne, hnacc]

/-- Witness for C3: on the flat system with the identity integrator and a
one-step trajectory, the acceptance probability is `1`, the draw `u = 0`
accepts, and the returned direction equals the initial direction `1`. -/
theorem metropolis_direction_bookkeeping_witness :
    ((0 : ℚ) < min 1 (exSys.expQ (exSys.h exState - exSys.h { exState with dir := -exState.dir }))) ∧
    (sampleDynamicsTransition exSys exStep 0 exState 1).1.dir = exState.dir := by
  have h := metropolis_direction_bookkeeping exSys exStep 0 exState exState 1
    (le_refl 1) rfl (fun s s' hs => by simp [exStep] at hs; subst hs; rfl)
  have hacc : (0 : ℚ) < min 1 (exSys.expQ (exSys.h exState - exSys.h { exState with dir := -exState.dir })) := by
    norm_num [exSys, exState]
  exact ⟨hacc, h.1 hacc⟩

/-- C2 counterexample: at a concrete divergent leaf (flat start, energy
`2000` after the step, `max_delta_h = 1000`, zero steps completed before
this build) the base case of `build_tree` terminates with the divergence
flag set but records `n_step ≠ 0`: the step that produced the divergent
leaf is itself counted, so `n_step` does not reflect only the steps
completed before the divergence. -/
theorem build_tree_divergent_step_counted :
    (buildTree exDivDyn exRng 0 exState 0 0 ⟨0, false, 0⟩ 0 0).terminate = true ∧
    (buildTree exDivDyn exRng 0 exState 0 0 ⟨0, false, 0⟩ 0 0).stats.divergent = true ∧
    (buildTree exDivDyn exRng 0 exState 0 0 ⟨0, false, 0⟩ 0 0).stats.nStep ≠ 0 := by
  refine ⟨?_, ?_, ?_⟩ <;> norm_num [buildTree, exDivDyn, exHighSys, exStep, exState]

/-- C2 (amended): in the base case of `build_tree`, a leaf with
`h_leaf - h_init > max_delta_h` terminates the build immediately with the
divergence flag set, and `n_step` is incremented for the completed
integrator step that produced the divergent leaf (so it counts all
completed steps, including the divergent one). -/
theorem build_tree_divergent_leaf {V : Type} [AddCommMonoid V]
    (M : DynamicMultinomialHMC V) (rng : ℕ → ℚ) (state : ChainState V)
    (sumMom : V) (sumWeight : ℚ) (stats : TreeStats) (hInit : ℚ) (k : ℕ)
    (st : ChainState V)
    (hstep : M.step state = some st)
    (hdiv : M.sys.h st - hInit > M.maxDeltaH) :
    (buildTree M rng 0 state sumMom sumWeight stats hInit k).terminate = true ∧
    (buildTree M rng 0 state sumMom sumWeight stats hInit k).stats.divergent = true ∧
    (buildTree M rng 0 state sumMom sumWeight stats hInit k).stats.nStep =
      stats.nStep + 1 := by
  have hd : decide (M.sys.h st - hInit > M.maxDeltaH) = true := decide_eq_true hdiv
  refine ⟨?_, ?_, ?_⟩ <;> simp [buildTree, hstep, hd]

/-- Witness for C2 (amended) at the concrete divergent leaf. -/
theorem build_tree_divergent_leaf_witness :
    (buildTree exDivDyn exRng 0 exState 0 0 ⟨0, false, 0⟩ 0 0).terminate = true ∧
    (buildTree exDivDyn exRng 0 exState 0 0 ⟨0, false, 0⟩ 0 0).stats.divergent = true ∧
    (buildTree exDivDyn exRng 0 exState 0 0 ⟨0, false, 0⟩ 0 0).stats.nStep = 0 + 1 :=
  build_tree_divergent_leaf exDivDyn exRng exState 0 0 ⟨0, false, 0⟩ 0 0 exState
    rfl (by norm_num [exDivDyn, exHighSys])

/-- C5: in the recursive case of `build_tree` (depth `d + 1`), if the
inner half-subtree (result `ri`) signals termination the whole build
short-circuits — it returns the termination 4-tuple with the caller's
accumulators untouched, `ri`'s statistics and `ri`'s rng cursor, so the
outer half-subtree is never built and no further random draw is consumed;
otherwise, if the outer half-subtree (result `ro`, built from the inner
build's resulting edge) does not terminate either, the subtree's proposal
is the outer sub-proposal exactly when the next uniform draw is below
`weight_outer / (weight_outer + weight_inner)`, and the inner sub-proposal
otherwise. -/
theorem build_tree_recursive_case {V : Type} [AddCommMonoid V]
    (M : DynamicMultinomialHMC V) (rng : ℕ → ℚ) (depth : ℕ)
    (state : ChainState V) (sumMom : V) (sumWeight : ℚ) (stats : TreeStats)
    (hInit : ℚ) (k : ℕ) (ri : BuildResult V)
    (hri : buildTree M rng depth state 0 0 stats hInit k = ri) :
    (ri.terminate = true →
      buildTree M rng (depth + 1) state sumMom sumWeight stats hInit k =
        ⟨true, none, none, none, sumMom, sumWeight, ri.stats, ri.k⟩) ∧
    (∀ (stI stNew stPI : ChainState V) (ro : BuildResult V),
      ri.terminate = false →
      ri.stateFirst = some stI →
      ri.stateLast = some stNew →
      ri.stateProp = some stPI →
      buildTree M rng depth stNew 0 0 ri.stats hInit ri.k = ro →
      (ro.terminate = true →
        buildTree M rng (depth + 1) state sumMom sumWeight stats hInit k =
          ⟨true, none, none, none, sumMom, sumWeight, ro.stats, ro.k⟩) ∧
      (∀ (stO stPO : ChainState V),
        ro.terminate = false →
        ro.stateLast = some stO →
        ro.stateProp = some stPO →
        (buildTree M rng (depth + 1) state sumMom sumWeight stats hInit k).stateProp =
          some (if rng ro.k < ro.sumWeight / (ro.sumWeight + ri.sumWeight)
                then stPO else stPI))) := by
  constructor
  · intro ht
    simp [buildTree, hri, ht]
  · intro stI stNew stPI ro ht h1 h2 h3 hro
    constructor
    · intro hot
      simp [buildTree, hri, ht, h1, h2, h3, hro, hot]
    · intro stO stPO hof h4 h5
      rw [add_comm ro.sumWeight ri.sumWeight]
      simp [buildTree, hri, ht, h1, h2, h3, hro, hof, h4, h5]

/-- Witness for C5 on the flat system at depth `0 + 1`: both sub-proposals
are the same state, so the selected proposal is that state. -/
theorem build_tree_recursive_case_witness :
    (buildTree (exDyn 1) exRng 1 exState 0 0 ⟨0, false, 0⟩ 0 0).stateProp =
      some exState := by
  have h := (build_tree_recursive_case (exDyn 1) exRng 0 exState 0 0
      ⟨0, false, 0⟩ 0 0 _ rfl).2 exState exState exState _
    (by norm_num [buildTree, exDyn, exSys, exStep, exState])
    (by norm_num [buildTree, exDyn, exSys, exStep, exState])
    (by norm_num [buildTree, exDyn, exSys, exStep, exState])
    (by norm_num [buildTree, exDyn, exSys, exStep, exState]) rfl
  have h2 := h.2 exState exState
    (by norm_num [buildTree, exDyn, exSys, exStep, exState])
    (by norm_num [buildTree, exDyn, exSys, exStep, exState])
    (by norm_num [buildTree, exDyn, exSys, exStep, exState])
  rw [h2]
  simp

/-- The final value of the doubling-loop variable `depth` is always one of
the executed loop values `depth₀, …, depth₀ + remaining - 1`. -/
lemma dynLoop_lastDepth_lt {V : Type} [AddCommMonoid V]
    (M : DynamicMultinomialHMC V) (rng : ℕ → ℚ) (hInit : ℚ) :
    ∀ (remaining depth : ℕ) (sN sL sR : ChainState V) (sm : V) (sw : ℚ)
      (st : TreeStats) (k d : ℕ),
      (dynLoop M rng hInit depth remaining sN sL sR sm sw st k).lastDepth = some d →
      d < depth + remaining := by
  intro remaining
  induction remaining with
  | zero =>
    intro depth sN sL sR sm sw st k d h
    simp [dynLoop] at h
  | succ m ih =>
    intro depth sN sL sR sm sw st k d h
    simp only [dynLoop] at h
    repeat' split at h
    all_goals
      first
        | (simp at h; omega)
        | (have hlt := ih (depth + 1) _ _ _ _ _ _ _ d h; omega)

/-- When the doubling loop runs at least one iteration, the loop variable
`depth` ends up bound. -/
lemma dynLoop_lastDepth_isSome {V : Type} [AddCommMonoid V]
    (M : DynamicMultinomialHMC V) (rng : ℕ → ℚ) (hInit : ℚ)
    (remaining depth : ℕ) (sN sL sR : ChainState V) (sm : V) (sw : ℚ)
    (st : TreeStats) (k : ℕ) (hr : 1 ≤ remaining) :
    (dynLoop M rng hInit depth remaining sN sL sR sm sw st k).lastDepth.isSome
      = true := by
  cases remaining with
  | zero => omega
  | succ m =>
    simp only [dynLoop]
    repeat' split
    all_goals first | rfl | simp [*] | simp_all

/-- C7: whenever a dynamic-sampler transition returns (which requires
`max_tree_depth ≥ 1`, see the claim about the `max_tree_depth = 0` crash),
the doubling loop has executed at most `max_tree_depth` iterations at
depths `0, …, max_tree_depth - 1`, so the recorded tree depth is strictly
below `max_tree_depth` and in particular never exceeds it. -/
theorem dynamic_tree_depth_bounded {V : Type} [AddCommMonoid V]
    (M : DynamicMultinomialHMC V) (rng : ℕ → ℚ) (state st : ChainState V)
    (ts : DynTransStats)
    (h : dynamicSampleDynamicsTransition M rng state = some (st, ts)) :
    ts.treeDepth < M.maxTreeDepth ∧ ts.treeDepth ≤ M.maxTreeDepth := by
  simp only [dynamicSampleDynamicsTransition] at h
  cases hld : (dynLoop M rng (M.sys.h state) 0 M.maxTreeDepth state
      { state with dir := -1 } { state with dir := 1 } state.mom
      (M.sys.expQ (-M.sys.h state)) ⟨0, false, 0⟩ 0).lastDepth with
  | none => rw [hld] at h; simp at h
  | some d =>
    rw [hld] at h
    simp only [Option.some.injEq, Prod.mk.injEq] at h
    have hb := dynLoop_lastDepth_lt M rng (M.sys.h state) M.maxTreeDepth 0
      state { state with dir := -1 } { state with dir := 1 } state.mom
      (M.sys.expQ (-M.sys.h state)) ⟨0, false, 0⟩ 0 d hld
    have hts : ts.treeDepth = d := by
      rw [← h.2]
    omega

/-- Witness for C7: on the flat system with `max_tree_depth = 1` the
transition returns tree depth `0`, which is below the cap `1`. -/
theorem dynamic_tree_depth_bounded_witness :
    dynamicSampleDynamicsTransition (exDyn 1) exRng exState =
      some (exState, ⟨0, 1, 1, 0, false⟩) ∧ (0 : ℕ) < 1 := by
  have hEq : dynamicSampleDynamicsTransition (exDyn 1) exRng exState =
      some (exState, ⟨0, 1, 1, 0, false⟩) := by
    norm_num [dynamicSampleDynamicsTransition, dynLoop, buildTree,
      terminationCriterion, exDyn, exSys, exStep, exState, exRng]
  exact ⟨hEq,
    (dynamic_tree_depth_bounded (exDyn 1) exRng exState exState
      ⟨0, 1, 1, 0, false⟩ hEq).1⟩

/-- C10: the dynamic-sampler transition completes (returns a value) if and
only if `max_tree_depth ≥ 1`: with `max_tree_depth = 0` the doubling loop
body never executes, the loop variable `depth` stays unbound, and reading
it for `stats['tree_depth']` raises (modelled by `none`) instead of
returning the unchanged state with tree depth `0`. -/
theorem dynamic_max_tree_depth_zero_raises {V : Type} [AddCommMonoid V]
    (M : DynamicMultinomialHMC V) (rng : ℕ → ℚ) (state : ChainState V) :
    (M.maxTreeDepth = 0 → dynamicSampleDynamicsTransition M rng state = none) ∧
    (1 ≤ M.maxTreeDepth →
      (dynamicSampleDynamicsTransition M rng state).isSome = true) := by
  constructor
  · intro h0
    simp [dynamicSampleDynamicsTransition, h0, dynLoop]
  · intro h1
    have hs := dynLoop_lastDepth_isSome M rng (M.sys.h state) M.maxTreeDepth 0
      state { state with dir := -1 } { state with dir := 1 } state.mom
      (M.sys.expQ (-M.sys.h state)) ⟨0, false, 0⟩ 0 h1
    obtain ⟨d, hd⟩ := Option.isSome_iff_exists.mp hs
    simp only [dynamicSampleDynamicsTransition]
    rw [hd]
    rfl

/-- Witness for C10: with `max_tree_depth = 0` the transition raises
(returns `none`); with `max_tree_depth = 1` it completes. -/
theorem dynamic_max_tree_depth_zero_raises_witness :
    dynamicSampleDynamicsTransition (exDyn 0) exRng exState = none ∧
    (dynamicSampleDynamicsTransition (exDyn 1) exRng exState).isSome = true :=
  ⟨(dynamic_max_tree_depth_zero_raises (exDyn 0) exRng exState).1 rfl,
   (dynamic_max_tree_depth_zero_raises (exDyn 1) exRng exState).2 (by decide)⟩

/-- C6 counterexample: for a chain of `n_sample = 3` samples, the
`n_step` statistics array is allocated with length `2`, not `3`: the
per-transition arrays do not have length equal to the number of samples
requested. -/
theorem chain_stats_alloc_length_mismatch :
    (metropolisInitialiseChainStats 3).nStep = 2 ∧
    (metropolisInitialiseChainStats 3).nStep ≠ 3 := by
  refine ⟨rfl, by decide⟩

/-- C6 (amended): for every chain run of `n_sample` samples, the
statistics arrays are allocated at chain start with length `n_sample` for
`hamiltonian` and length `n_sample - 1` for the per-transition arrays
(`n_step`, `accept_prob`, and for the dynamic sampler `tree_depth` and
`divergent`), and each valid index of each array is written exactly once
by the chain driver (`hamiltonian[0]` at initialisation, the rest by the
`n_sample - 1` iterations of the chain loop). -/
theorem chain_stats_alloc_and_write_once (nSample : ℕ) :
    (metropolisInitialiseChainStats nSample).hamiltonian = nSample ∧
    (metropolisInitialiseChainStats nSample).nStep = nSample - 1 ∧
    (metropolisInitialiseChainStats nSample).acceptProb = nSample - 1 ∧
    (dynamicInitialiseChainStats nSample).hamiltonian = nSample ∧
    (dynamicInitialiseChainStats nSample).nStep = nSample - 1 ∧
    (dynamicInitialiseChainStats nSample).acceptProb = nSample - 1 ∧
    (dynamicInitialiseChainStats nSample).treeDepth = nSample - 1 ∧
    (dynamicInitialiseChainStats nSample).divergent = nSample - 1 ∧
    (∀ i, i < nSample → (hamiltonianWriteIndices nSample).count i = 1) ∧
    (∀ i, i < nSample - 1 → (perTransitionWriteIndices nSample).count i = 1) := by
  refine ⟨rfl, rfl, rfl, rfl, rfl, rfl, rfl, rfl, ?_, ?_⟩
  · intro i hi
    have hnodup : (hamiltonianWriteIndices nSample).Nodup := by
      rw [hamiltonianWriteIndices, List.nodup_cons]
      constructor
      · intro hmem
        rcases List.mem_map.mp hmem with ⟨a, _, ha⟩
        omega
      · exact (List.nodup_range _).map fun a b hab => by omega
    have hmem : i ∈ hamiltonianWriteIndices nSample := by
      rw [hamiltonianWriteIndices]
      rcases Nat.eq_zero_or_pos i with h0 | hpos
      · subst h0; exact List.mem_cons_self _ _
      · refine List.mem_cons_of_mem _ (List.mem_map.mpr ⟨i - 1, ?_, by omega⟩)
        exact List.mem_range.mpr (by omega)
    exact List.count_eq_one_of_mem hnodup hmem
  · intro i hi
    have heq : perTransitionWriteIndices nSample = List.range (nSample - 1) := by
      simp [perTransitionWriteIndices]
    rw [heq]
    exact List.count_eq_one_of_mem (List.nodup_range _) (List.mem_range.mpr hi)

/-- Witness for C6 (amended) at `n_sample = 3`, index `2` of `hamiltonian`
and index `1` of the per-transition arrays. -/
theorem chain_stats_alloc_and_write_once_witness :
    (metropolisInitialiseChainStats 3).nStep = 3 - 1 ∧
    (hamiltonianWriteIndices 3).count 2 = 1 ∧
    (perTransitionWriteIndices 3).count 1 = 1 :=
  ⟨(chain_stats_alloc_and_write_once 3).2.1,
   (chain_stats_alloc_and_write_once 3).2.2.2.2.2.2.2.2.1 2 (by omega),
   (chain_stats_alloc_and_write_once 3).2.2.2.2.2.2.2.2.2 1 (by omega)⟩

end HMC
